import Mathlib

/-!
Shallow embedding of the NeoRetroSynth step sequencer (src/main.py) and proofs
about its pattern store, edit controller, loop recorder/player, preset map,
WAV exporter and MIDI exporter.

Conventions of the embedding:
* Python ints become `Nat`; the 0.25-second float durations stored in pattern
  cells become `ℚ` (0.25 is exactly representable in binary floating point, and
  every duration in the program is the literal 0.25, so the rational model is
  exact on every value the program manipulates).
* Fallible operations (list index errors, tuple-unpack errors, division by
  zero) return `Option`: `none` marks the tick or export raising an exception.
* Python object aliasing (the preset map storing references into the live
  pattern lists) is modelled with an explicit heap of pattern objects and
  `Nat` references into it.
-/

namespace NeoRetroSynth

/-- A drum pattern cell, the list `[is_active, sound_index, velocity, duration]`
of main.py line 23.  `active` keeps the Python integer flag (the code toggles it
with `1 - x`), `duration` is in seconds. -/
structure DrumCell where
  active : Nat
  sound : Nat
  velocity : Nat
  duration : ℚ
deriving DecidableEq

/-- A synth pattern cell, the list `[is_active, note, octave, waveform,
velocity, duration]` of main.py line 26. -/
structure SynthCell where
  active : Nat
  note : Nat
  octave : Nat
  waveform : Nat
  velocity : Nat
  duration : ℚ
deriving DecidableEq

/-- The default (inactive) drum cell `[0, 0, 100, 0.25]` (main.py lines 23 and 295). -/
def defaultDrumCell : DrumCell := { active := 0, sound := 0, velocity := 100, duration := 1/4 }

/-- The default (inactive) synth cell `[0, 0, 0, 0, 100, 0.25]` (main.py lines 26 and 295). -/
def defaultSynthCell : SynthCell :=
  { active := 0, note := 0, octave := 0, waveform := 0, velocity := 100, duration := 1/4 }

/-- A fresh drum pattern: 32 default cells (main.py lines 22-24). -/
def initDrumPattern : List DrumCell := List.replicate 32 defaultDrumCell

/-- A fresh synth pattern: 32 default cells (main.py lines 25-27). -/
def initSynthPattern : List SynthCell := List.replicate 32 defaultSynthCell

/-- Python `enumerate` starting at `n`: pairs every list element with its index. -/
def enumFromN (n : Nat) : List α → List (Nat × α)
  | [] => []
  | a :: l => (n, a) :: enumFromN (n + 1) l

/-! ## MIDI exporter (main.py lines 424-475) -/

/-- Fuel-indexed body of the `while value:` loop of `write_var_length`
(main.py lines 427-429): each iteration prepends `value & 0x7F | 0x80` and
shifts `value` right by 7 bits.  The fuel is only an upper bound on the number
of iterations (the value strictly decreases every round and `fuel = value`
always suffices); it makes the recursion structural so that the kernel can
evaluate it. -/
def vlqLoopAux : Nat → Nat → List Nat
  | _, 0 => []
  | 0, _ + 1 => []
  | fuel + 1, v + 1 => vlqLoopAux fuel ((v + 1) / 128) ++ [(v + 1) % 128 + 128]

/-- The `while value:` loop of `write_var_length` run to completion. -/
def write_var_length_loop (v : Nat) : List Nat := vlqLoopAux v v

/-- The statement `result[-1] &= 0x7F` (main.py line 432): clear the top bit of
the final byte.  Every byte the loop produces lies in `[128, 256)`, and the
single appended `0` byte is below 128, so `% 128` is exactly `&= 0x7F` here. -/
def clearTopBitLast : List Nat → List Nat
  | [] => []
  | [a] => [a % 128]
  | a :: b :: l => a :: clearTopBitLast (b :: l)

/-- `write_var_length` (main.py lines 425-433): big-endian base-128 groups with
the continuation bit on all but the last byte, and `[0]` for the value 0. -/
def write_var_length (v : Nat) : List Nat :=
  let r := write_var_length_loop v
  let r := if r = [] then [0] else r
  clearTopBitLast r

/-- Standard MIDI variable-length-quantity decoding: 7 payload bits per byte,
most significant group first (the continuation bit is masked off). -/
def vlqDecode (bs : List Nat) : Nat :=
  bs.foldl (fun acc b => acc * 128 + b % 128) 0

/-- Well-formedness of a MIDI variable-length quantity: nonempty, every byte
except the last has the continuation bit set (and fits in a byte), and the
last byte has the continuation bit clear. -/
def vlqWellFormed (bs : List Nat) : Prop :=
  bs ≠ [] ∧ (∀ b ∈ bs.dropLast, 128 ≤ b ∧ b < 256) ∧ ∀ b ∈ bs.getLast?, b < 128

/-- `struct.pack('>I', v)`: four big-endian bytes (main.py lines 446-447). -/
def pack32be (v : Nat) : List Nat :=
  [v / 16777216 % 256, v / 65536 % 256, v / 256 % 256, v % 256]

/-- Big-endian interpretation of a byte list (used to read back the 24-bit
tempo field). -/
def be24 (bs : List Nat) : Nat := bs.foldl (fun a x => a * 256 + x) 0

/-- The tempo meta-event bytes `b'\xFF\x51\x03' + struct.pack('>I',
int(60000000 / self.bpm))[:3]` (main.py line 447).  `[:3]` keeps the FIRST
three (most significant) bytes of the four-byte packing.  `int(60000000 /
bpm)` is modelled as natural division: for every bpm in [60, 300] the
fractional part of the true quotient is at least 1/300, far above the double
rounding error at this magnitude, so float truncation and `Nat` division
agree. -/
def tempoMetaBytes (bpm : Nat) : List Nat :=
  [0xFF, 0x51, 0x03] ++ (pack32be (60000000 / bpm)).take 3

/-- `note_to_midi` (main.py lines 435-436). -/
def note_to_midi (note octave : Nat) : Nat := note + (octave - 1) * 12 + 60

/-- `int(duration * 480)` (main.py line 454): durations are positive, so float
truncation is the rational floor. -/
def durTicks (d : ℚ) : Nat := (⌊d * 480⌋).toNat

/-- The bytes appended for one active drum step (main.py lines 451-454):
note-on `delta(step*120) 99 note velocity`, then note-off
`delta(int(duration*480)) 89 note 00`, with `note = 35 + sound_index`. -/
def drumEventBytes (step : Nat) (c : DrumCell) : List Nat :=
  write_var_length (step * 120) ++ [0x99, 35 + c.sound, c.velocity] ++
    (write_var_length (durTicks c.duration) ++ [0x89, 35 + c.sound, 0])

/-- The bytes appended for one active synth step (main.py lines 466-469). -/
def synthEventBytes (step : Nat) (c : SynthCell) : List Nat :=
  write_var_length (step * 120) ++ [0x90, note_to_midi c.note c.octave, c.velocity] ++
    (write_var_length (durTicks c.duration) ++ [0x80, note_to_midi c.note c.octave, 0])

/-- The event section of the drum track: the loop of main.py lines 449-454 over
`enumerate(self.drum_patterns[0][:self.drum_lengths[0]])`, keeping only active
cells, in order. -/
def midiDrumEvents (pat : List DrumCell) (len : Nat) : List Nat :=
  ((enumFromN 0 (pat.take len)).filterMap
    (fun p => if p.2.active ≠ 0 then some (drumEventBytes p.1 p.2) else none)).flatten

/-- The full `track_data` of the drum track (main.py lines 445-456): a
four-byte `struct.pack('>I', 0)` delta-time, the tempo meta-event, the step
events, and the end-of-track meta-event. -/
def midiDrumTrack (bpm : Nat) (pat : List DrumCell) (len : Nat) : List Nat :=
  pack32be 0 ++ tempoMetaBytes bpm ++ midiDrumEvents pat len ++ [0x00, 0xFF, 0x2F, 0x00]

/-- `block` occurs contiguously inside `l`. -/
def containsBlock (block l : List Nat) : Prop := ∃ u v, l = u ++ block ++ v

/-! ## WAV exporter (main.py lines 477-504) -/

/-- Truncation toward zero, the behaviour of numpy's `np.int16` cast on a
float that is within int16 range. -/
def truncToInt (q : ℚ) : Int := if 0 ≤ q then ⌊q⌋ else -⌊-q⌋

/-- `np.max(np.abs(audio))` (main.py line 502).  On the empty list this yields
0, which feeds the same division-by-zero path the claim is about; on any
nonempty list it is the true peak since all absolute values are nonnegative. -/
def peakAbs (buf : List ℚ) : ℚ := (buf.map (fun x => |x|)).foldr max 0

/-- Line 502, `np.int16(audio / np.max(np.abs(audio)) * 32767)`: normalize the
buffer by its peak absolute value and quantize.  A zero peak makes every
division a division by zero (numpy produces NaN samples and the int16 cast of
NaN is undefined), modelled as failure `none`. -/
def normalizeQuantize (buf : List ℚ) : Option (List Int) :=
  let peak := peakAbs buf
  if peak = 0 then none
  else some (buf.map (fun x => truncToInt (x / peak * 32767)))

/-- The two synthesis loops of `export_to_wav` (main.py lines 484-500),
evaluated at sample index `i`.  The transcendental per-sample factors — for a
drum cell `np.sin(2π(100+100·sound)t_i)·np.exp(-10 t_i)` and for a synth cell
the selected square / triangle / sine waveform times `np.exp(-5 t_i)` — are
passed in as functions `drumOsc step i` and `synthOsc step i` of the step and
the sample index; the activity gating, the `velocity / 100` scaling and the
summation into one shared buffer follow the source.  Only inactive cells
contribute nothing, whatever the oscillator values are. -/
def wavSample (drumOsc synthOsc : Nat → Nat → ℚ) (drums : List DrumCell)
    (synths : List SynthCell) (i : Nat) : ℚ :=
  ((enumFromN 0 drums).foldl
    (fun a p => if p.2.active ≠ 0 then a + drumOsc p.1 i * (p.2.velocity / 100) else a) 0) +
  ((enumFromN 0 synths).foldl
    (fun a p => if p.2.active ≠ 0 then a + synthOsc p.1 i * (p.2.velocity / 100) else a) 0)

/-- The summed audio buffer over `n` samples (`n = int(44100 * duration)`),
reading only drum track 0 and synth track 0 up to their stored lengths, as the
source does (main.py lines 484 and 490). -/
def wavAudio (drumOsc synthOsc : Nat → Nat → ℚ) (drumPat : List DrumCell)
    (drumLen : Nat) (synthPat : List SynthCell) (synthLen : Nat) (n : Nat) : List ℚ :=
  (List.range n).map (wavSample drumOsc synthOsc (drumPat.take drumLen) (synthPat.take synthLen))

/-- `export_to_wav` up to the point where the sample words are known
(main.py lines 477-502): synthesize, normalize, quantize. -/
def export_to_wav_samples (drumOsc synthOsc : Nat → Nat → ℚ) (drumPat : List DrumCell)
    (drumLen : Nat) (synthPat : List SynthCell) (synthLen : Nat) (n : Nat) : Option (List Int) :=
  normalizeQuantize (wavAudio drumOsc synthOsc drumPat drumLen synthPat synthLen n)

/-! ## Loop recorder/player (main.py lines 116-124, 155-171, 534-542) -/

/-- One recorded loop entry.  The drum paths append the 2-tuple
`(1, 60 + sound_index)` (main.py lines 241 and 542); the synth paths append the
4-tuple `(0, note, octave, waveform)` (main.py lines 120, 124 and 249). -/
inductive LoopEntry where
  | drum (channel sound : Nat)
  | synth (channel note octave waveform : Nat)
deriving DecidableEq

/-- The tuple unpacking `channel, sound = self.loop[...]` (main.py line 170):
it succeeds exactly on 2-tuples; unpacking a 4-tuple into two names raises
`ValueError`, modelled as `none`. -/
def unpack2 : LoopEntry → Option (Nat × Nat)
  | .drum c s => some (c, s)
  | .synth _ _ _ _ => none

/-- The playback block of `handle_loop_controls` (main.py lines 168-171).
Result `some none`: nothing due this frame; `some (some (ch, snd))`: the call
`pyxel.play(ch, snd)`; `none`: the tuple unpack raised. -/
def loopPlaybackAction (playing : Bool) (loop : List LoopEntry) (frame : Nat) :
    Option (Option (Nat × Nat)) :=
  if playing = true ∧ loop ≠ [] ∧ frame % 6 = 0 then
    match loop[frame / 6 % loop.length]? with
    | some e =>
      match unpack2 e with
      | some cs => some (some cs)
      | none => none
    | none => none
  else some none

/-! ## Tick state and input -/

/-- The keys the modelled handlers read in one frame, plus `pyxel.frame_count`.
`drumKeys` are keys 1-4 and `synthKeys` are the twelve Z..M keys, in the order
of the source lists. -/
structure Input where
  r : Bool
  space : Bool
  cKey : Bool
  left : Bool
  right : Bool
  up : Bool
  down : Bool
  wKey : Bool
  period : Bool
  comma : Bool
  k6 : Bool
  k7 : Bool
  k8 : Bool
  k9 : Bool
  tab : Bool
  e : Bool
  t : Bool
  plusKey : Bool
  minusKey : Bool
  backspace : Bool
  f5 : Bool
  drumKeys : List Bool
  synthKeys : List Bool
  frame : Nat
deriving DecidableEq

/-- The mutable fields of `NeoRetroSynth.__init__` that the modelled handlers
touch (main.py lines 15-43). -/
structure AppState where
  loopRecording : Bool
  loop : List LoopEntry
  playing : Bool
  sequencerPlaying : Bool
  frameCount : Nat
  bpm : Nat
  currentSteps : List Nat
  drumPatterns : List (List DrumCell)
  synthPatterns : List (List SynthCell)
  drumLengths : List Nat
  synthLengths : List Nat
  editMode : Bool
  editPosition : Nat
  editTarget : Nat
  currentOctave : Nat
  currentWaveform : Nat
  soundLength : Nat
  drumVolume : Nat
  synthVolume : Nat
  arpeggiatorOn : Bool
deriving DecidableEq

/-- The state right after `__init__` (main.py lines 15-43). -/
def initAppState : AppState :=
  { loopRecording := false
    loop := []
    playing := false
    sequencerPlaying := false
    frameCount := 0
    bpm := 120
    currentSteps := [0, 0, 0, 0]
    drumPatterns := [initDrumPattern, initDrumPattern]
    synthPatterns := [initSynthPattern, initSynthPattern]
    drumLengths := [8, 8]
    synthLengths := [8, 8]
    editMode := false
    editPosition := 0
    editTarget := 0
    currentOctave := 2
    currentWaveform := 0
    soundLength := 10
    drumVolume := 7
    synthVolume := 7
    arpeggiatorOn := false }

/-- `self.arp_pattern = [0, 4, 7, 12]` (main.py line 43). -/
def arpPattern : List Nat := [0, 4, 7, 12]

/-- `apply_arpeggiator` (main.py lines 529-532). -/
def apply_arpeggiator (arpOn : Bool) (note : Nat) : List Nat :=
  if arpOn then arpPattern.map (fun o => note + o) else [note]

/-- `handle_keyboard_input` (main.py lines 106-124): for each pressed key of
Z..M, `note = i % 8` is played (the `play_note` call touches only the external
sound device) and, while recording, the 4-tuple `(0, note, octave, waveform)`
is appended to the loop — one entry per arpeggiator note when the arpeggiator
is on. -/
def handle_keyboard_input (inp : Input) (st : AppState) : AppState :=
  (enumFromN 0 inp.synthKeys).foldl
    (fun st p =>
      if p.2 then
        let note := p.1 % 8
        let rec1 := (apply_arpeggiator st.arpeggiatorOn note).map
          (fun n => LoopEntry.synth 0 n st.currentOctave st.currentWaveform)
        if st.loopRecording then
          { st with loop := st.loop ++ rec1 }
        else st
      else st) st

/-- `handle_drum_input` (main.py lines 534-542): each pressed drum key plays
sound `60 + i` and, while recording, appends the 2-tuple `(1, 60 + i)`. -/
def handle_drum_input (inp : Input) (st : AppState) : AppState :=
  (enumFromN 0 inp.drumKeys).foldl
    (fun st p =>
      if p.2 then
        if st.loopRecording then { st with loop := st.loop ++ [LoopEntry.drum 1 (60 + p.1)] }
        else st
      else st) st

/-- `handle_loop_controls` (main.py lines 155-171): R toggles recording (and
stopping a recording with a nonempty loop auto-starts playback), SPACE toggles
playback, C clears the loop and stops, then the due loop entry — if any — is
replayed; a synth 4-tuple there raises (propagated as `none`). -/
def handle_loop_controls (inp : Input) (st : AppState) : Option AppState :=
  let st1 := if inp.r then
      let rec2 := !st.loopRecording
      { st with loopRecording := rec2,
                playing := if rec2 = false ∧ st.loop ≠ [] then true else st.playing }
    else st
  let st2 := if inp.space then { st1 with playing := !st1.playing } else st1
  let st3 := if inp.cKey then { st2 with loop := [], playing := false } else st2
  match loopPlaybackAction st3.playing st3.loop inp.frame with
  | some _ => some st3
  | none => none

/-- `handle_sound_controls` (main.py lines 173-203): octave, sound length,
waveform, BPM and volume keys.  The `setup_sounds` calls touch only the
external sound device. -/
def handle_sound_controls (inp : Input) (st : AppState) : AppState :=
  let st := if inp.up ∧ st.currentOctave < 4 then { st with currentOctave := st.currentOctave + 1 } else st
  let st := if inp.down ∧ st.currentOctave > 1 then { st with currentOctave := st.currentOctave - 1 } else st
  let st := if inp.left ∧ st.soundLength > 1 then { st with soundLength := st.soundLength - 1 } else st
  let st := if inp.right ∧ st.soundLength < 99 then { st with soundLength := st.soundLength + 1 } else st
  let st := if inp.wKey then { st with currentWaveform := (st.currentWaveform + 1) % 4 } else st
  let st := if inp.period then { st with bpm := min (st.bpm + 5) 300 } else st
  let st := if inp.comma then { st with bpm := max (st.bpm - 5) 60 } else st
  let st := if inp.k6 then { st with drumVolume := st.drumVolume - 1 } else st
  let st := if inp.k7 then { st with drumVolume := min (st.drumVolume + 1) 7 } else st
  let st := if inp.k8 then { st with synthVolume := st.synthVolume - 1 } else st
  let st := if inp.k9 then { st with synthVolume := min (st.synthVolume + 1) 7 } else st
  st

/-- `frames_per_step = 3600 // self.bpm` (main.py line 230). -/
def frames_per_step (bpm : Nat) : Nat := 3600 / bpm

/-- One drum track of the step-advance block (main.py lines 236-242): fire the
addressed cell if active (recording appends `(1, 60 + sound_index)`), then
advance `current_steps[i]` modulo the track length.  Out-of-range pattern or
step indices would raise `IndexError` (`none`), a zero length would raise
`ZeroDivisionError`. -/
def drumStep (i : Nat) (st : AppState) : Option AppState :=
  match st.drumPatterns[i]? with
  | none => none
  | some pat =>
    match st.currentSteps[i]? with
    | none => none
    | some cs =>
      match pat[cs]? with
      | none => none
      | some cell =>
        let st :=
          if cell.active ≠ 0 then
            if st.loopRecording then
              { st with loop := st.loop ++ [LoopEntry.drum 1 (60 + cell.sound)] }
            else st
          else st
        match st.drumLengths[i]? with
        | none => none
        | some len =>
          if len = 0 then none
          else some { st with currentSteps := st.currentSteps.set i ((cs + 1) % len) }

/-- One synth track of the step-advance block (main.py lines 244-250): the
`play_note` call touches only the sound device (its channel assertion holds
for `i ∈ {0, 1}`); recording appends the 4-tuple `(0, note, octave,
waveform)`. -/
def synthStep (i : Nat) (st : AppState) : Option AppState :=
  match st.synthPatterns[i]? with
  | none => none
  | some pat =>
    match st.currentSteps[i + 2]? with
    | none => none
    | some cs =>
      match pat[cs]? with
      | none => none
      | some cell =>
        let st :=
          if cell.active ≠ 0 then
            if st.loopRecording then
              { st with loop := st.loop ++ [LoopEntry.synth 0 cell.note cell.octave cell.waveform] }
            else st
          else st
        match st.synthLengths[i]? with
        | none => none
        | some len =>
          if len = 0 then none
          else some { st with currentSteps := st.currentSteps.set (i + 2) ((cs + 1) % len) }

/-- The transport block of `handle_sequencer` (main.py lines 232-250): while
the sequencer is playing, count frames and on each step boundary fire all four
tracks and advance their steps. -/
def seqPlayingBranch (st : AppState) : Option AppState :=
  if st.sequencerPlaying then
    let st := { st with frameCount := st.frameCount + 1 }
    if frames_per_step st.bpm ≤ st.frameCount then
      let st := { st with frameCount := 0 }
      (((drumStep 0 st).bind (drumStep 1)).bind (synthStep 0)).bind (synthStep 1)
    else some st
  else some st

/-- Cursor movement while in edit mode (main.py lines 265-268): LEFT stops at
0, RIGHT is clamped to `current_length` (one past the last playable index). -/
def moveCursor (left right : Bool) (pos len : Nat) : Nat :=
  let p1 := if left ∧ 0 < pos then pos - 1 else pos
  if right then min (p1 + 1) len else p1

/-- The SPACE branch of the edit block (main.py lines 270-271):
`current_pattern[self.edit_position][0] = 1 - current_pattern[self.edit_position][0]`.
There is no `edit_position < current_length` guard: the toggle lands on
whatever backing cell sits at the cursor, and only a cursor beyond the backing
list raises `IndexError`. -/
def spaceToggleDrum (space : Bool) (pos : Nat) (pat : List DrumCell) : Option (List DrumCell) :=
  if space then
    match pat[pos]? with
    | some c => some (pat.set pos { c with active := 1 - c.active })
    | none => none
  else some pat

/-- The SPACE branch of the edit block for a synth target (main.py lines
270-271). -/
def spaceToggleSynth (space : Bool) (pos : Nat) (pat : List SynthCell) : Option (List SynthCell) :=
  if space then
    match pat[pos]? with
    | some c => some (pat.set pos { c with active := 1 - c.active })
    | none => none
  else some pat

/-- The drum-key branch of the edit block (main.py lines 273-278): each pressed
key of 1-4 writes its sound index into the cursor cell and activates it. -/
def drumKeysApply (keys : List Bool) (pos : Nat) (pat : List DrumCell) : Option (List DrumCell) :=
  (enumFromN 0 keys).foldl
    (fun acc p =>
      acc.bind fun pat =>
        if p.2 then
          match pat[pos]? with
          | some c => some (pat.set pos { c with sound := p.1, active := 1 })
          | none => none
        else some pat) (some pat)

/-- The synth-key branch of the edit block (main.py lines 280-290): each
pressed key of Z..M writes note `i % 8`, the current octave and waveform into
the cursor cell and activates it. -/
def synthKeysApply (keys : List Bool) (pos octave waveform : Nat) (pat : List SynthCell) :
    Option (List SynthCell) :=
  (enumFromN 0 keys).foldl
    (fun acc p =>
      acc.bind fun pat =>
        if p.2 then
          match pat[pos]? with
          | some c => some (pat.set pos
              { c with note := p.1 % 8, octave := octave, waveform := waveform, active := 1 })
          | none => none
        else some pat) (some pat)

/-- The `+` branch (main.py lines 292-295): `current_length` here is the LOCAL
variable read at line 263 — `current_length += 1` updates only that local, so
the function returns the appended pattern together with the incremented local,
and the caller never stores the local back into
`self.drum_lengths`/`self.synth_lengths`. -/
def growDrumLocal (plusKey : Bool) (localLen : Nat) (pat : List DrumCell) : Nat × List DrumCell :=
  if plusKey ∧ localLen < 32 then (localLen + 1, pat ++ [defaultDrumCell]) else (localLen, pat)

/-- The `-` branch (main.py lines 296-299): guard on the LOCAL length, then
`current_pattern.pop()` removes the last cell of the backing list (raising
`IndexError` on an empty list); the decremented local is never stored back. -/
def shrinkDrumLocal (minusKey : Bool) (localLen : Nat) (pat : List DrumCell) :
    Option (Nat × List DrumCell) :=
  if minusKey ∧ 1 < localLen then
    match pat.getLast? with
    | some _ => some (localLen - 1, pat.dropLast)
    | none => none
  else some (localLen, pat)

/-- The `+` branch for a synth target (main.py lines 292-295). -/
def growSynthLocal (plusKey : Bool) (localLen : Nat) (pat : List SynthCell) : Nat × List SynthCell :=
  if plusKey ∧ localLen < 32 then (localLen + 1, pat ++ [defaultSynthCell]) else (localLen, pat)

/-- The `-` branch for a synth target (main.py lines 296-299). -/
def shrinkSynthLocal (minusKey : Bool) (localLen : Nat) (pat : List SynthCell) :
    Option (Nat × List SynthCell) :=
  if minusKey ∧ 1 < localLen then
    match pat.getLast? with
    | some _ => some (localLen - 1, pat.dropLast)
    | none => none
  else some (localLen, pat)

/-- The edit block of `handle_sequencer` (main.py lines 261-302).
`current_pattern` is a reference into the pattern store (writes go through to
`drum_patterns`/`synth_patterns`), while `current_length` is a local copy of
the stored length: the `+`/`-` branches update only the local, so the stored
lengths survive unchanged. -/
def editBranch (inp : Input) (st : AppState) : Option AppState :=
  if st.editMode then
    let t := st.editTarget
    let localLen := if t < 2 then st.drumLengths.getD t 0 else st.synthLengths.getD (t - 2) 0
    let pos := moveCursor inp.left inp.right st.editPosition localLen
    let st1 := { st with editPosition := pos }
    if t < 2 then
      match st1.drumPatterns[t]? with
      | none => none
      | some pat0 =>
        (spaceToggleDrum inp.space pos pat0).bind fun pat1 =>
          (drumKeysApply inp.drumKeys pos pat1).bind fun pat2 =>
            let grown := growDrumLocal inp.plusKey localLen pat2
            (shrinkDrumLocal inp.minusKey grown.1 grown.2).bind fun shrunk =>
              let st2 := { st1 with drumPatterns := st1.drumPatterns.set t shrunk.2 }
              some (if inp.backspace then { st2 with editMode := false } else st2)
    else
      match st1.synthPatterns[t - 2]? with
      | none => none
      | some pat0 =>
        (spaceToggleSynth inp.space pos pat0).bind fun pat1 =>
          (synthKeysApply inp.synthKeys pos st1.currentOctave st1.currentWaveform pat1).bind
            fun pat2 =>
              let grown := growSynthLocal inp.plusKey localLen pat2
              (shrinkSynthLocal inp.minusKey grown.1 grown.2).bind fun shrunk =>
                let st2 := { st1 with synthPatterns := st1.synthPatterns.set (t - 2) shrunk.2 }
                some (if inp.backspace then { st2 with editMode := false } else st2)
  else some st

/-- `handle_sequencer` (main.py lines 225-302): TAB toggles the transport and
resets the frame counter, the transport block runs, E toggles edit mode
(resetting the cursor on entry), T cycles the edit target, then the edit block
runs. -/
def handle_sequencer (inp : Input) (st : AppState) : Option AppState :=
  let st := if inp.tab then { st with sequencerPlaying := !st.sequencerPlaying, frameCount := 0 }
    else st
  (seqPlayingBranch st).bind fun st =>
    let st := if inp.e then
        let em := !st.editMode
        { st with editMode := em, editPosition := if em then 0 else st.editPosition }
      else st
    let st := if inp.t then { st with editTarget := (st.editTarget + 1) % 4 } else st
    editBranch inp st

/-- `update` (main.py lines 85-104) without the export/preset hotkeys: the
handlers run in source order; F1-F4 call the exporters and the preset map
(modelled separately as pure functions) and F5 toggles the arpeggiator. -/
def update (inp : Input) (st : AppState) : Option AppState :=
  let st1 := handle_keyboard_input inp st
  let st2 := handle_drum_input inp st1
  (handle_loop_controls inp st2).bind fun st3 =>
    let st4 := handle_sound_controls inp st3
    (handle_sequencer inp st4).map fun st5 =>
      if inp.f5 then { st5 with arpeggiatorOn := !st5.arpeggiatorOn } else st5

/-! ## Preset map (main.py lines 506-523)

Python stores object references: `self.presets[name] = {'drum_patterns':
self.drum_patterns, ...}` aliases the live pattern lists, and `load_preset`
re-binds the live names to the stored objects.  The embedding makes the
aliasing explicit with a heap of pattern-store objects and `Nat` references
into it; in-place cell mutation writes through the live reference. -/

/-- One saved preset: `{'waveform': ..., 'drum_patterns': ..., 'synth_patterns':
...}` (main.py lines 507-511), holding REFERENCES to the pattern objects, not
copies. -/
structure PresetSnapshot where
  waveform : Nat
  drumsRef : Nat
  synthsRef : Nat
deriving DecidableEq

/-- The engine state relevant to presets: heaps of drum/synth pattern-store
objects, the live references, the current waveform and the preset map. -/
structure EngineState where
  drumHeap : List (List (List DrumCell))
  synthHeap : List (List (List SynthCell))
  drumsRef : Nat
  synthsRef : Nat
  currentWaveform : Nat
  presets : List (String × PresetSnapshot)
deriving DecidableEq

/-- Engine state after `__init__`: one drum-patterns object and one
synth-patterns object on the heap, live references to them, no presets. -/
def initEngineState : EngineState :=
  { drumHeap := [[initDrumPattern, initDrumPattern]]
    synthHeap := [[initSynthPattern, initSynthPattern]]
    drumsRef := 0
    synthsRef := 0
    currentWaveform := 0
    presets := [] }

/-- Replace element `i` of `l` by `f l[i]` (in-place mutation of a heap
object; indices used below are always in range). -/
def listModify (l : List α) (i : Nat) (f : α → α) : List α :=
  match l[i]? with
  | some a => l.set i (f a)
  | none => l

/-- `save_preset` (main.py lines 506-512): the dictionary entry stores the
waveform by value and the two pattern stores BY REFERENCE. -/
def save_preset (name : String) (st : EngineState) : EngineState :=
  { st with presets :=
      (name, { waveform := st.currentWaveform, drumsRef := st.drumsRef,
               synthsRef := st.synthsRef }) :: st.presets }

/-- Dictionary lookup: the most recently saved entry for a name wins. -/
def lookupPreset (name : String) (ps : List (String × PresetSnapshot)) : Option PresetSnapshot :=
  (ps.find? (fun p => p.1 = name)).map (fun p => p.2)

/-- `load_preset` (main.py lines 514-523): on a hit, re-bind the live names to
the stored objects (references again, not copies); on a miss, leave the state
unchanged. -/
def load_preset (name : String) (st : EngineState) : EngineState :=
  match lookupPreset name st.presets with
  | some p => { st with currentWaveform := p.waveform, drumsRef := p.drumsRef,
                        synthsRef := p.synthsRef }
  | none => st

/-- The in-place cell toggle of main.py line 271 performed on the LIVE drum
pattern store: the write goes through the live reference into the heap. -/
def toggleDrumCellLive (track idx : Nat) (st : EngineState) : EngineState :=
  let newHeap := listModify st.drumHeap st.drumsRef
    (fun pats => listModify pats track
      (fun pat => listModify pat idx (fun c => { c with active := 1 - c.active })))
  { st with drumHeap := newHeap }

/-- The drum patterns the live name `self.drum_patterns` currently denotes. -/
def liveDrumPatterns (st : EngineState) : List (List DrumCell) :=
  st.drumHeap.getD st.drumsRef []

/-! ## Concrete frames and states used in the theorems below -/

/-- A frame with no key pressed. -/
def noInput : Input :=
  { r := false
    space := false
    cKey := false
    left := false
    right := false
    up := false
    down := false
    wKey := false
    period := false
    comma := false
    k6 := false
    k7 := false
    k8 := false
    k9 := false
    tab := false
    e := false
    t := false
    plusKey := false
    minusKey := false
    backspace := false
    f5 := false
    drumKeys := List.replicate 4 false
    synthKeys := List.replicate 12 false
    frame := 0 }

/-- A frame in which only SPACE is pressed, at `pyxel.frame_count = frame`. -/
def spaceOnlyInput (frame : Nat) : Input := { noInput with space := true, frame := frame }

/-- The startup state with edit mode switched on (target drum track 0,
cursor 0). -/
def editEntryState : AppState := { initAppState with editMode := true }

/-- The startup state in edit mode with the cursor moved all the way right, to
position 8 — which RIGHT clamps to `current_length = 8`, one past the last
playable index. -/
def editPos8State : AppState := { initAppState with editMode := true, editPosition := 8 }

/-- The active drum cell `[1, 0, 100, 0.25]` of the specification's one-step
export example: sound 0 (kick), velocity 100, duration 0.25 s. -/
def exampleDrumCellOn : DrumCell := { active := 1, sound := 0, velocity := 100, duration := 1/4 }

/-- Drum pattern for the one-step export example: step 0 active, the other 31
cells default. -/
def exampleDrumPattern : List DrumCell := exampleDrumCellOn :: List.replicate 31 defaultDrumCell

/-- The `active` flag of the cell currently under the edit cursor of the
targeted track (`none` when the cursor is outside the backing list). -/
def targetCellActive (st : AppState) : Option Nat :=
  if st.editTarget < 2 then
    ((st.drumPatterns.getD st.editTarget [])[st.editPosition]?).map (fun c => c.active)
  else
    ((st.synthPatterns.getD (st.editTarget - 2) [])[st.editPosition]?).map (fun c => c.active)

/-- A small edit-mode state used to instantiate the SPACE frame-effect
theorem: single-cell patterns, edit target drum 0, cursor 0. -/
def c10State : AppState :=
  { initAppState with
    editMode := true
    drumPatterns := [[defaultDrumCell], [defaultDrumCell]]
    synthPatterns := [[defaultSynthCell], [defaultSynthCell]]
    drumLengths := [1, 1]
    synthLengths := [1, 1] }

/-- The state `c10State` reaches after one SPACE-only frame: loop playback
toggled on and the cursor cell activated. -/
def c10Result : AppState :=
  { c10State with
    playing := true
    drumPatterns := [[{ defaultDrumCell with active := 1 }], [defaultDrumCell]] }

/-! ## Theorems -/

/-- C1: pressing `+` in edit mode on the startup state appends a cell to the
backing pattern list (33 cells) but leaves the stored lengths `[8, 8]`
untouched, and pressing `-` pops a backing cell (31 cells) while again leaving
the stored lengths untouched — `current_length += 1` / `-= 1` update only a
local variable, so the stored length neither increments on grow nor decrements
on shrink, and it stops matching the number of backing cells. -/
theorem c1_grow_shrink_do_not_update_stored_length :
    ((handle_sequencer { noInput with plusKey := true } editEntryState).map
      (fun s => (s.drumLengths, (s.drumPatterns.getD 0 []).length))) = some ([8, 8], 33) ∧
    ((handle_sequencer { noInput with minusKey := true } editEntryState).map
      (fun s => (s.drumLengths, (s.drumPatterns.getD 0 []).length))) = some ([8, 8], 31) :=
  ⟨by decide, by decide⟩

/-- C2: `save_preset` stores references, not deep copies.  After
`save_preset "p"`, toggling drum cell (0,0) in place, and `load_preset "p"`,
the live drum patterns show the toggled cell active (the mutation leaked into
the stored preset), whereas the snapshot at save time had every cell inactive;
the waveform, saved by value, is restored correctly. -/
theorem c2_preset_aliases_live_patterns :
    (((liveDrumPatterns (load_preset "p" (toggleDrumCellLive 0 0
        (save_preset "p" initEngineState)))).getD 0 []).map (fun c => c.active))
      = 1 :: List.replicate 31 0 ∧
    (((liveDrumPatterns (save_preset "p" initEngineState)).getD 0 []).map (fun c => c.active))
      = List.replicate 32 0 ∧
    (load_preset "p" { toggleDrumCellLive 0 0 (save_preset "p" initEngineState) with
        currentWaveform := 3 }).currentWaveform = 0 :=
  ⟨by decide, by decide, by decide⟩

/-- C6: the loop player replays drum 2-tuples (advancing `frame_count // 6`
modulo the buffer length, one entry per 6 frames, and nothing on off frames),
but a recorded synth entry is a 4-tuple and the unpacking
`channel, sound = self.loop[...]` raises `ValueError` instead of replaying it
through the pitch/amplitude resolution. -/
theorem c6_loop_replay_fails_on_synth_entries :
    loopPlaybackAction true [LoopEntry.synth 0 0 2 0] 6 = none ∧
    loopPlaybackAction true [LoopEntry.drum 1 60, LoopEntry.drum 1 61] 6 = some (some (1, 61)) ∧
    loopPlaybackAction true [LoopEntry.drum 1 60, LoopEntry.drum 1 61] 12 = some (some (1, 60)) ∧
    loopPlaybackAction true [LoopEntry.drum 1 60, LoopEntry.drum 1 61] 7 = some none :=
  ⟨by decide, by decide, by decide, by decide⟩

theorem vlqLoopAux_foldl (fuel : Nat) : ∀ v a, v ≤ fuel →
    (vlqLoopAux fuel v).foldl (fun acc b => acc * 128 + b % 128) a =
      a * 128 ^ (vlqLoopAux fuel v).length + v := by
  induction fuel with
  | zero =>
    intro v a hv
    have hv0 : v = 0 := by omega
    subst hv0
    simp [vlqLoopAux]
  | succ n ih =>
    intro v a hv
    match v with
    | 0 => simp [vlqLoopAux]
    | w + 1 =>
      have hdiv : (w + 1) / 128 ≤ n := by
        have := Nat.div_lt_self (Nat.succ_pos w) (by norm_num : 1 < 128)
        omega
      show (List.foldl _ a (vlqLoopAux n ((w + 1) / 128) ++ [(w + 1) % 128 + 128])) = _
      rw [List.foldl_append, ih _ a hdiv]
      have hmod : ((w + 1) % 128 + 128) % 128 = (w + 1) % 128 := by omega
      have hlen : (vlqLoopAux (n + 1) (w + 1)).length = (vlqLoopAux n ((w + 1) / 128)).length + 1 := by
        show (vlqLoopAux n ((w + 1) / 128) ++ [(w + 1) % 128 + 128]).length = _
        simp
      rw [hlen]
      show (a * 128 ^ (vlqLoopAux n ((w + 1) / 128)).length + (w + 1) / 128) * 128 +
          ((w + 1) % 128 + 128) % 128 = _
      rw [hmod, pow_succ]
      have hdm : (w + 1) / 128 * 128 + (w + 1) % 128 = w + 1 := by omega
      ring_nf
      omega

theorem foldl_clearTopBitLast : ∀ (l : List Nat) (a : Nat),
    (clearTopBitLast l).foldl (fun acc b => acc * 128 + b % 128) a =
      l.foldl (fun acc b => acc * 128 + b % 128) a := by
  intro l
  induction l with
  | nil => intro a; rfl
  | cons x t ih =>
    cases t with
    | nil =>
      intro a
      show a * 128 + x % 128 % 128 = a * 128 + x % 128
      omega
    | cons y t2 =>
      intro a
      show (clearTopBitLast (y :: t2)).foldl _ (a * 128 + x % 128) = _
      exact ih (a * 128 + x % 128)

theorem vlqLoopAux_ne_nil (fuel v : Nat) (hv : v ≠ 0) (h : v ≤ fuel) :
    vlqLoopAux fuel v ≠ [] := by
  match fuel, v with
  | 0, v => omega
  | n + 1, 0 => exact absurd rfl hv
  | n + 1, w + 1 => simp [vlqLoopAux]

theorem vlqDecode_write_var_length (v : Nat) : vlqDecode (write_var_length v) = v := by
  by_cases hv : v = 0
  · subst hv; decide
  · have hne : write_var_length_loop v ≠ [] := vlqLoopAux_ne_nil v v hv le_rfl
    show vlqDecode (clearTopBitLast (if write_var_length_loop v = [] then [0]
      else write_var_length_loop v)) = v
    rw [if_neg hne]
    show (clearTopBitLast (vlqLoopAux v v)).foldl _ 0 = v
    rw [foldl_clearTopBitLast, vlqLoopAux_foldl v v 0 le_rfl]
    simp

theorem vlqLoopAux_mem (fuel : Nat) : ∀ v, v ≤ fuel → ∀ b ∈ vlqLoopAux fuel v,
    128 ≤ b ∧ b < 256 := by
  induction fuel with
  | zero =>
    intro v hv b hb
    have hv0 : v = 0 := by omega
    subst hv0
    simp [vlqLoopAux] at hb
  | succ n ih =>
    intro v hv b hb
    match v with
    | 0 => simp [vlqLoopAux] at hb
    | w + 1 =>
      have hdiv : (w + 1) / 128 ≤ n := by
        have := Nat.div_lt_self (Nat.succ_pos w) (by norm_num : 1 < 128)
        omega
      have hb2 : b ∈ vlqLoopAux n ((w + 1) / 128) ++ [(w + 1) % 128 + 128] := hb
      rcases List.mem_append.1 hb2 with h1 | h1
      · exact ih _ hdiv b h1
      · have : b = (w + 1) % 128 + 128 := by simpa using h1
        subst this
        have := Nat.mod_lt (w + 1) (show 0 < 128 by norm_num)
        omega

theorem clearTopBitLast_ne_nil : ∀ l : List Nat, l ≠ [] → clearTopBitLast l ≠ [] := by
  intro l hl
  match l with
  | [a] => simp [clearTopBitLast]
  | a :: b :: t => simp [clearTopBitLast]

theorem clearTopBitLast_wf : ∀ l : List Nat, l ≠ [] → (∀ b ∈ l, 128 ≤ b ∧ b < 256) →
    vlqWellFormed (clearTopBitLast l) := by
  intro l
  induction l with
  | nil => intro h; exact absurd rfl h
  | cons x t ih =>
    intro _ hb
    cases t with
    | nil =>
      refine ⟨by simp [clearTopBitLast], ?_, ?_⟩
      · simp [clearTopBitLast]
      · intro b hbmem
        have hbx : x % 128 = b := by
          simpa [clearTopBitLast, Option.mem_def] using hbmem
        rw [← hbx]
        exact Nat.mod_lt _ (by norm_num)
    | cons y t2 =>
      have hbt : ∀ b ∈ y :: t2, 128 ≤ b ∧ b < 256 := fun b h => hb b (List.mem_cons_of_mem _ h)
      obtain ⟨hne, hdrop, hlast⟩ := ih (by simp) hbt
      have hshape : clearTopBitLast (x :: y :: t2) = x :: clearTopBitLast (y :: t2) := rfl
      refine ⟨by simp [hshape], ?_, ?_⟩
      · intro b hbmem
        rw [hshape] at hbmem
        cases hc : clearTopBitLast (y :: t2) with
        | nil => exact absurd hc hne
        | cons c cs =>
          rw [hc, List.dropLast_cons₂] at hbmem
          rcases List.mem_cons.1 hbmem with rfl | h2
          · exact hb b (by simp)
          · exact hdrop b (by rw [hc]; exact h2)
      · intro b hbmem
        rw [hshape] at hbmem
        cases hc : clearTopBitLast (y :: t2) with
        | nil => exact absurd hc hne
        | cons c cs =>
          rw [hc, List.getLast?_cons_cons] at hbmem
          exact hlast b (by rw [hc]; exact hbmem)

theorem write_var_length_wf (v : Nat) : vlqWellFormed (write_var_length v) := by
  by_cases hv : v = 0
  · subst hv
    refine ⟨by decide, ?_, ?_⟩
    · intro b hb; simp [write_var_length, write_var_length_loop, vlqLoopAux,
        clearTopBitLast] at hb
    · intro b hb
      have hb0 : 0 = b := by
        simpa [write_var_length, write_var_length_loop, vlqLoopAux, clearTopBitLast,
          Option.mem_def] using hb
      omega
  · have hne : write_var_length_loop v ≠ [] := vlqLoopAux_ne_nil v v hv le_rfl
    show vlqWellFormed (clearTopBitLast (if write_var_length_loop v = [] then [0]
      else write_var_length_loop v))
    rw [if_neg hne]
    exact clearTopBitLast_wf _ hne (vlqLoopAux_mem v v le_rfl)

/-- C5: the delta-time written before the tempo meta-event is the four bytes
`00 00 00 00` of `struct.pack('>I', 0)`, not the single zero byte `00` that
the variable-length-quantity encoding of 0 prescribes — even though
`write_var_length` itself is a correct VLQ encoder (it round-trips every
value, encodes 0 as exactly `[0]`, and emits most-significant-first groups
with the continuation bit set on every byte but the last). -/
theorem c5_tempo_delta_time_is_not_a_vlq :
    (midiDrumTrack 120 initDrumPattern 8).take 4 = [0, 0, 0, 0] ∧
    write_var_length 0 = [0] ∧
    (∀ v, vlqDecode (write_var_length v) = v) ∧
    (∀ v, vlqWellFormed (write_var_length v)) :=
  ⟨by decide, by decide, vlqDecode_write_var_length, write_var_length_wf⟩

/-- C4: at bpm 120 the three bytes written after `FF 51 03` are `00 07 A1`,
the TOP three bytes of `struct.pack('>I', 500000)` — they encode 1953, not the
claimed 24-bit value `60000000 / 120 = 500000` (which would be `07 A1 20`). -/
theorem c4_tempo_value_is_shifted :
    tempoMetaBytes 120 = [0xFF, 0x51, 0x03, 0x00, 0x07, 0xA1] ∧
    be24 ((tempoMetaBytes 120).drop 3) = 1953 ∧
    60000000 / 120 = 500000 ∧
    be24 [0x07, 0xA1, 0x20] = 500000 :=
  ⟨by decide, by decide, by decide, by decide⟩

theorem mem_enumFromN {α : Type} : ∀ (l : List α) (i : Nat) (a : α) (n : Nat),
    l[i]? = some a → (n + i, a) ∈ enumFromN n l := by
  intro l
  induction l with
  | nil => intro i a n h; simp at h
  | cons x t ih =>
    intro i a n h
    cases i with
    | zero =>
      have hx : x = a := by simpa using h
      subst hx
      simp [enumFromN]
    | succ j =>
      have ht : t[j]? = some a := by simpa using h
      have hrec := ih j a (n + 1) ht
      have harith : n + (j + 1) = (n + 1) + j := by omega
      rw [harith]
      exact List.mem_cons_of_mem _ hrec

theorem containsBlock_of_mem_flatten : ∀ (L : List (List Nat)) (x : List Nat),
    x ∈ L → containsBlock x L.flatten := by
  intro L
  induction L with
  | nil => intro x hx; simp at hx
  | cons h t ih =>
    intro x hx
    rcases List.mem_cons.1 hx with rfl | hx2
    · exact ⟨[], t.flatten, by simp⟩
    · obtain ⟨u, v, huv⟩ := ih x hx2
      exact ⟨h ++ u, v, by simp [huv]⟩

theorem durTicks_quarter : durTicks (1/4) = 120 := by
  unfold durTicks
  have h1 : ((1 : ℚ)/4) * 480 = ((120 : ℤ) : ℚ) := by norm_num
  rw [h1, Int.floor_intCast]
  rfl

/-- C7: every active drum cell at playable step index `s` of drum track 0
contributes exactly the byte block `VLQ(s*120) 99 (35+sound) velocity
VLQ(int(duration*480)) 89 (35+sound) 00` to the first track's event section,
which sits between the tempo event and the end-of-track marker; on the
specification's one-step example (sound 0, velocity 100, duration 0.25) the
events are the note-on `99 23 64` at delta 0 and the note-off `89 23 00` at
delta 120. -/
theorem c7_drum_note_events (bpm : Nat) (pat : List DrumCell) (len s : Nat) (c : DrumCell)
    (hs : (pat.take len)[s]? = some c) (hact : c.active ≠ 0) :
    drumEventBytes s c =
      write_var_length (s * 120) ++ [0x99, 35 + c.sound, c.velocity] ++
        (write_var_length (durTicks c.duration) ++ [0x89, 35 + c.sound, 0]) ∧
    containsBlock (drumEventBytes s c) (midiDrumEvents pat len) ∧
    midiDrumTrack bpm pat len =
      pack32be 0 ++ tempoMetaBytes bpm ++ midiDrumEvents pat len ++ [0x00, 0xFF, 0x2F, 0x00] ∧
    midiDrumEvents exampleDrumPattern 8 = [0x00, 0x99, 0x23, 0x64, 0x78, 0x89, 0x23, 0x00] := by
  refine ⟨rfl, ?_, rfl, ?_⟩
  · have hmem := mem_enumFromN (pat.take len) s c 0 hs
    rw [Nat.zero_add] at hmem
    apply containsBlock_of_mem_flatten
    apply List.mem_filterMap.2
    exact ⟨(s, c), hmem, by simp [hact]⟩
  · have hstep : midiDrumEvents exampleDrumPattern 8 = drumEventBytes 0 exampleDrumCellOn ++ [] :=
      rfl
    rw [hstep, List.append_nil]
    unfold drumEventBytes
    have hdur : exampleDrumCellOn.duration = 1/4 := rfl
    rw [hdur, durTicks_quarter]
    decide

/-- Witness for C7: the general theorem applied to the one-step example
pattern at bpm 120, step 0. -/
theorem c7_drum_note_events_witness :
    drumEventBytes 0 exampleDrumCellOn =
      write_var_length (0 * 120) ++ [0x99, 35 + exampleDrumCellOn.sound,
        exampleDrumCellOn.velocity] ++
        (write_var_length (durTicks exampleDrumCellOn.duration) ++
          [0x89, 35 + exampleDrumCellOn.sound, 0]) ∧
    containsBlock (drumEventBytes 0 exampleDrumCellOn) (midiDrumEvents exampleDrumPattern 8) ∧
    midiDrumTrack 120 exampleDrumPattern 8 =
      pack32be 0 ++ tempoMetaBytes 120 ++ midiDrumEvents exampleDrumPattern 8 ++
        [0x00, 0xFF, 0x2F, 0x00] ∧
    midiDrumEvents exampleDrumPattern 8 = [0x00, 0x99, 0x23, 0x64, 0x78, 0x89, 0x23, 0x00] :=
  c7_drum_note_events 120 exampleDrumPattern 8 0 exampleDrumCellOn rfl (by decide)

theorem foldl_drum_inactive (osc : Nat → Nat → ℚ) (i : Nat) :
    ∀ (l : List DrumCell) (n : Nat) (a : ℚ), (∀ c ∈ l, c.active = 0) →
      ((enumFromN n l).foldl
        (fun a p => if p.2.active ≠ 0 then a + osc p.1 i * (p.2.velocity / 100) else a) a) = a := by
  intro l
  induction l with
  | nil => intro n a h; rfl
  | cons x t ih =>
    intro n a h
    have hx : x.active = 0 := h x (by simp)
    show (enumFromN (n + 1) t).foldl _
      (if x.active ≠ 0 then a + osc n i * (x.velocity / 100) else a) = a
    rw [if_neg (by simp [hx])]
    exact ih (n + 1) a (fun c hc => h c (List.mem_cons_of_mem _ hc))

theorem foldl_synth_inactive (osc : Nat → Nat → ℚ) (i : Nat) :
    ∀ (l : List SynthCell) (n : Nat) (a : ℚ), (∀ c ∈ l, c.active = 0) →
      ((enumFromN n l).foldl
        (fun a p => if p.2.active ≠ 0 then a + osc p.1 i * (p.2.velocity / 100) else a) a) = a := by
  intro l
  induction l with
  | nil => intro n a h; rfl
  | cons x t ih =>
    intro n a h
    have hx : x.active = 0 := h x (by simp)
    show (enumFromN (n + 1) t).foldl _
      (if x.active ≠ 0 then a + osc n i * (x.velocity / 100) else a) = a
    rw [if_neg (by simp [hx])]
    exact ih (n + 1) a (fun c hc => h c (List.mem_cons_of_mem _ hc))

theorem peakAbs_of_zeros : ∀ (buf : List ℚ), (∀ x ∈ buf, x = 0) → peakAbs buf = 0 := by
  intro buf
  induction buf with
  | nil => intro _; rfl
  | cons x t ih =>
    intro h
    have hx : x = 0 := h x (by simp)
    have hshape : peakAbs (x :: t) = max |x| (peakAbs t) := rfl
    rw [hshape, hx, abs_zero, ih (fun y hy => h y (List.mem_cons_of_mem _ hy))]
    simp

/-- C3: exporting the startup pattern set — every cell of drum track 0 and
synth track 0 inactive — produces an all-zero summed buffer, whose peak is 0,
so line 502 divides by zero: the export fails instead of emitting silence,
whatever the oscillator values and the sample count are. -/
theorem c3_all_inactive_export_divides_by_zero (dOsc sOsc : Nat → Nat → ℚ) (n : Nat) :
    export_to_wav_samples dOsc sOsc initDrumPattern 8 initSynthPattern 8 n = none := by
  have hbuf : ∀ x ∈ wavAudio dOsc sOsc initDrumPattern 8 initSynthPattern 8 n, x = 0 := by
    intro x hx
    unfold wavAudio at hx
    obtain ⟨i, hi, hxe⟩ := List.mem_map.1 hx
    rw [← hxe]
    unfold wavSample
    have hd : ∀ c ∈ initDrumPattern.take 8, c.active = 0 := by
      intro c hc
      have h2 := List.eq_of_mem_replicate (List.mem_of_mem_take hc)
      rw [h2]; rfl
    have hsy : ∀ c ∈ initSynthPattern.take 8, c.active = 0 := by
      intro c hc
      have h2 := List.eq_of_mem_replicate (List.mem_of_mem_take hc)
      rw [h2]; rfl
    rw [foldl_drum_inactive dOsc i _ 0 0 hd, foldl_synth_inactive sOsc i _ 0 0 hsy]
    norm_num
  unfold export_to_wav_samples normalizeQuantize
  simp [peakAbs_of_zeros _ hbuf]

theorem le_peakAbs : ∀ (buf : List ℚ) (x : ℚ), x ∈ buf → |x| ≤ peakAbs buf := by
  intro buf
  induction buf with
  | nil => intro x hx; simp at hx
  | cons y t ih =>
    intro x hx
    have hshape : peakAbs (y :: t) = max |y| (peakAbs t) := rfl
    rcases List.mem_cons.1 hx with rfl | hx2
    · rw [hshape]; exact le_max_left _ _
    · rw [hshape]; exact le_trans (ih x hx2) (le_max_right _ _)

theorem peakAbs_nonneg : ∀ buf : List ℚ, 0 ≤ peakAbs buf := by
  intro buf
  induction buf with
  | nil => exact le_refl 0
  | cons y t ih =>
    have hshape : peakAbs (y :: t) = max |y| (peakAbs t) := rfl
    rw [hshape]
    exact le_trans ih (le_max_right _ _)

theorem exists_peak : ∀ buf : List ℚ, peakAbs buf ≠ 0 → ∃ x ∈ buf, |x| = peakAbs buf := by
  intro buf
  induction buf with
  | nil => intro h; exact absurd rfl h
  | cons y t ih =>
    intro h
    have hshape : peakAbs (y :: t) = max |y| (peakAbs t) := rfl
    rcases max_cases |y| (peakAbs t) with ⟨heq, _⟩ | ⟨heq, _⟩
    · exact ⟨y, by simp, by rw [hshape, heq]⟩
    · have ht : peakAbs t ≠ 0 := by
        rw [hshape, heq] at h
        exact h
      obtain ⟨x, hx, hxe⟩ := ih ht
      exact ⟨x, List.mem_cons_of_mem _ hx, by rw [hshape, heq, hxe]⟩

theorem truncToInt_natAbs_le (q : ℚ) (c : Nat) (h : |q| ≤ (c : ℚ)) :
    (truncToInt q).natAbs ≤ c := by
  unfold truncToInt
  by_cases h0 : 0 ≤ q
  · rw [if_pos h0]
    have h1 : (0 : ℤ) ≤ ⌊q⌋ := Int.floor_nonneg.2 h0
    have h2 : ⌊q⌋ ≤ (c : ℤ) := by
      have hq : q ≤ (c : ℚ) := by rwa [abs_of_nonneg h0] at h
      have h3 := Int.floor_le_floor hq
      rwa [Int.floor_natCast] at h3
    omega
  · rw [if_neg h0]
    push_neg at h0
    have h1 : (0 : ℤ) ≤ ⌊-q⌋ := Int.floor_nonneg.2 (by linarith)
    have h2 : ⌊-q⌋ ≤ (c : ℤ) := by
      have hq : -q ≤ (c : ℚ) := by
        rw [abs_of_neg h0] at h
        exact h
      have h3 := Int.floor_le_floor hq
      rwa [Int.floor_natCast] at h3
    omega

theorem truncToInt_top : truncToInt ((32767 : ℚ)) = 32767 := by
  unfold truncToInt
  rw [if_pos (by norm_num)]
  have h1 : ((32767 : ℚ)) = ((32767 : ℤ) : ℚ) := by norm_num
  rw [h1, Int.floor_intCast]

theorem truncToInt_bot : truncToInt ((-32767 : ℚ)) = -32767 := by
  unfold truncToInt
  rw [if_neg (by norm_num)]
  have h1 : (-(-32767 : ℚ)) = ((32767 : ℤ) : ℚ) := by norm_num
  rw [h1, Int.floor_intCast]

/-- C8: whenever normalization succeeds (the summed buffer has a nonzero
peak), every quantized sample has magnitude at most 32767, and the sample at
which the peak is attained is exactly 32767 or -32767. -/
theorem c8_normalization_is_exact (buf : List ℚ) (out : List Int)
    (h : normalizeQuantize buf = some out) :
    (∀ s ∈ out, s.natAbs ≤ 32767) ∧ (∃ s ∈ out, s = 32767 ∨ s = -32767) := by
  unfold normalizeQuantize at h
  by_cases hp : peakAbs buf = 0
  · simp [hp] at h
  · rw [if_neg hp] at h
    have hout : out = buf.map (fun x => truncToInt (x / peakAbs buf * 32767)) :=
      (Option.some.inj h).symm
    have hpos : 0 < peakAbs buf := lt_of_le_of_ne (peakAbs_nonneg buf) (Ne.symm hp)
    constructor
    · intro s hs
      rw [hout] at hs
      obtain ⟨x, hx, hxe⟩ := List.mem_map.1 hs
      rw [← hxe]
      apply truncToInt_natAbs_le
      rw [abs_mul, abs_div]
      have h1 : |x| / |peakAbs buf| ≤ 1 := by
        rw [abs_of_pos hpos]
        exact div_le_one_of_le₀ (le_peakAbs buf x hx) (le_of_lt hpos)
      have h2 : |(32767 : ℚ)| = 32767 := by norm_num
      calc |x| / |peakAbs buf| * |(32767 : ℚ)|
          ≤ 1 * |(32767 : ℚ)| := mul_le_mul_of_nonneg_right h1 (abs_nonneg _)
        _ = ((32767 : Nat) : ℚ) := by rw [h2]; norm_num
    · obtain ⟨x, hx, hxe⟩ := exists_peak buf hp
      refine ⟨truncToInt (x / peakAbs buf * 32767), ?_, ?_⟩
      · rw [hout]
        exact List.mem_map.2 ⟨x, hx, rfl⟩
      · rcases (abs_eq (peakAbs_nonneg buf)).1 hxe with rfl | rfl
        · left
          rw [div_self (ne_of_gt hpos), one_mul]
          exact truncToInt_top
        · right
          rw [neg_div, div_self (ne_of_gt hpos), neg_one_mul]
          exact truncToInt_bot

/-- Witness for C8: the buffer `[1]` normalizes to the single sample 32767. -/
theorem c8_normalization_is_exact_witness :
    (∀ s ∈ [(32767 : Int)], s.natAbs ≤ 32767) ∧
    (∃ s ∈ [(32767 : Int)], s = 32767 ∨ s = -32767) :=
  c8_normalization_is_exact [(1 : ℚ)] [(32767 : Int)]
    (by simp [normalizeQuantize, peakAbs, truncToInt_top])

/-- C9 counterexample: on the startup state in edit mode with the cursor moved
to position 8 — equal to the stored length 8 of drum track 0 — pressing SPACE
mutates the pattern cell at index 8, the one-past-the-end position: the claim
that every cell mutation happens only when `cursor < length` is false. -/
theorem c9_mutation_at_cursor_eq_length :
    ((handle_sequencer { noInput with space := true } editPos8State).map
      (fun s => (((s.drumPatterns.getD 0 [])[8]?).map (fun c => c.active), s.editPosition)))
      = some (some 1, 8) ∧
    editPos8State.editPosition = editPos8State.drumLengths.getD 0 0 ∧
    ((editPos8State.drumPatterns.getD 0 [])[8]?).map (fun c => c.active) = some 0 :=
  ⟨by decide, by decide, by decide⟩

/-- C9 amended: while in edit mode the cursor stays within `[0, length]` (LEFT
stops at 0, RIGHT is clamped to `length`), but cell mutations carry no
`cursor < length` guard: SPACE toggles the backing cell at the cursor whenever
the backing list has one there — including at `cursor = length`, one past the
playable window. -/
theorem c9_cursor_clamped_but_mutations_unguarded (left right : Bool) (pos len : Nat)
    (pat : List DrumCell) (c : DrumCell) (hpos : pos ≤ len) (hc : pat[pos]? = some c) :
    moveCursor left right pos len ≤ len ∧
    spaceToggleDrum true pos pat = some (pat.set pos { c with active := 1 - c.active }) := by
  constructor
  · unfold moveCursor
    dsimp only
    split
    · exact min_le_right _ _
    · split
      · omega
      · exact hpos
  · show (match pat[pos]? with
      | some c0 => some (pat.set pos { c0 with active := 1 - c0.active })
      | none => none) = some (pat.set pos { c with active := 1 - c.active })
    rw [hc]

/-- Witness for the amended C9: at cursor = length = 8 over a 9-cell backing
list, the move stays clamped and SPACE mutates cell 8. -/
theorem c9_cursor_clamped_but_mutations_unguarded_witness :
    moveCursor false true 8 8 ≤ 8 ∧
    spaceToggleDrum true 8 (List.replicate 9 defaultDrumCell) =
      some ((List.replicate 9 defaultDrumCell).set 8
        { defaultDrumCell with active := 1 - defaultDrumCell.active }) :=
  c9_cursor_clamped_but_mutations_unguarded false true 8 8
    (List.replicate 9 defaultDrumCell) defaultDrumCell (by decide) rfl

theorem update_spaceOnly (f : Nat) (st : AppState) :
    update (spaceOnlyInput f) st =
      (handle_loop_controls (spaceOnlyInput f) st).bind
        (fun s => handle_sequencer (spaceOnlyInput f) s) := by
  show (handle_loop_controls (spaceOnlyInput f) st).bind
      (fun s => (handle_sequencer (spaceOnlyInput f) s).map (fun x => x)) = _
  cases handle_loop_controls (spaceOnlyInput f) st with
  | none => rfl
  | some s =>
    show (handle_sequencer (spaceOnlyInput f) s).map (fun x => x) =
      handle_sequencer (spaceOnlyInput f) s
    cases handle_sequencer (spaceOnlyInput f) s <;> rfl

theorem drumStep_preserves (i : Nat) (st st' : AppState) (h : drumStep i st = some st') :
    st'.playing = st.playing ∧ st'.editMode = st.editMode ∧
    st'.editPosition = st.editPosition ∧ st'.editTarget = st.editTarget ∧
    st'.drumPatterns = st.drumPatterns ∧ st'.synthPatterns = st.synthPatterns := by
  unfold drumStep at h
  dsimp only at h
  repeat' split at h
  any_goals exact (Option.noConfusion h)
  all_goals (have h2 := Option.some.inj h; subst h2; exact ⟨rfl, rfl, rfl, rfl, rfl, rfl⟩)

theorem synthStep_preserves (i : Nat) (st st' : AppState) (h : synthStep i st = some st') :
    st'.playing = st.playing ∧ st'.editMode = st.editMode ∧
    st'.editPosition = st.editPosition ∧ st'.editTarget = st.editTarget ∧
    st'.drumPatterns = st.drumPatterns ∧ st'.synthPatterns = st.synthPatterns := by
  unfold synthStep at h
  dsimp only at h
  repeat' split at h
  any_goals exact (Option.noConfusion h)
  all_goals (have h2 := Option.some.inj h; subst h2; exact ⟨rfl, rfl, rfl, rfl, rfl, rfl⟩)

theorem seqPlayingBranch_preserves (st st' : AppState) (h : seqPlayingBranch st = some st') :
    st'.playing = st.playing ∧ st'.editMode = st.editMode ∧
    st'.editPosition = st.editPosition ∧ st'.editTarget = st.editTarget ∧
    st'.drumPatterns = st.drumPatterns ∧ st'.synthPatterns = st.synthPatterns := by
  unfold seqPlayingBranch at h
  dsimp only at h
  split at h
  · split at h
    · obtain ⟨s3, hX3, h4⟩ := Option.bind_eq_some.1 h
      obtain ⟨s2, hX2, h3⟩ := Option.bind_eq_some.1 hX3
      obtain ⟨s1, h1, h2⟩ := Option.bind_eq_some.1 hX2
      obtain ⟨p1a, p1b, p1c, p1d, p1e, p1f⟩ := drumStep_preserves 0 _ _ h1
      obtain ⟨p2a, p2b, p2c, p2d, p2e, p2f⟩ := drumStep_preserves 1 _ _ h2
      obtain ⟨p3a, p3b, p3c, p3d, p3e, p3f⟩ := synthStep_preserves 0 _ _ h3
      obtain ⟨p4a, p4b, p4c, p4d, p4e, p4f⟩ := synthStep_preserves 1 _ _ h4
      refine ⟨?_, ?_, ?_, ?_, ?_, ?_⟩ <;> simp_all
    · have h2 := Option.some.inj h
      subst h2
      exact ⟨rfl, rfl, rfl, rfl, rfl, rfl⟩
  · have h2 := Option.some.inj h
    subst h2
    exact ⟨rfl, rfl, rfl, rfl, rfl, rfl⟩

theorem drumKeysApply_falses (pos : Nat) (l : List DrumCell) :
    drumKeysApply (List.replicate 4 false) pos l = some l := rfl

theorem synthKeysApply_falses (pos a b : Nat) (l : List SynthCell) :
    synthKeysApply (List.replicate 12 false) pos a b l = some l := rfl

theorem growDrumLocal_false (n : Nat) (l : List DrumCell) : growDrumLocal false n l = (n, l) := rfl

theorem shrinkDrumLocal_false (n : Nat) (l : List DrumCell) :
    shrinkDrumLocal false n l = some (n, l) := rfl

theorem growSynthLocal_false (n : Nat) (l : List SynthCell) :
    growSynthLocal false n l = (n, l) := rfl

theorem shrinkSynthLocal_false (n : Nat) (l : List SynthCell) :
    shrinkSynthLocal false n l = some (n, l) := rfl

theorem spaceToggleDrum_true (pos : Nat) (pat : List DrumCell) :
    spaceToggleDrum true pos pat =
      (pat[pos]?).map (fun c => pat.set pos { c with active := 1 - c.active }) := by
  show (match pat[pos]? with
    | some c => some (pat.set pos { c with active := 1 - c.active })
    | none => none) = _
  cases pat[pos]? <;> rfl

theorem spaceToggleSynth_true (pos : Nat) (pat : List SynthCell) :
    spaceToggleSynth true pos pat =
      (pat[pos]?).map (fun c => pat.set pos { c with active := 1 - c.active }) := by
  show (match pat[pos]? with
    | some c => some (pat.set pos { c with active := 1 - c.active })
    | none => none) = _
  cases pat[pos]? <;> rfl

theorem getD_set_self {α : Type} (l : List α) (i : Nat) (a d : α) (h : i < l.length) :
    (l.set i a).getD i d = a := by
  rw [List.getD_eq_getElem?_getD, List.getElem?_set_self h]
  rfl

theorem editBranch_spaceOnly (f : Nat) (st st' : AppState) (hm : st.editMode = true)
    (h : editBranch (spaceOnlyInput f) st = some st') :
    st'.playing = st.playing ∧ st'.editPosition = st.editPosition ∧
    st'.editTarget = st.editTarget ∧
    targetCellActive st' = (targetCellActive st).map (fun a => 1 - a) := by
  have hst : st = { st with editMode := true } := by
    have h0 : ({ st with editMode := true } : AppState) = { st with editMode := st.editMode } := by
      rw [hm]
    rw [h0]
  rw [hst] at h
  replace h : (let t := st.editTarget
    let localLen := if t < 2 then st.drumLengths.getD t 0 else st.synthLengths.getD (t - 2) 0
    let pos := st.editPosition
    let st1 : AppState := { st with editMode := true, editPosition := pos }
    if t < 2 then
      match st1.drumPatterns[t]? with
      | none => none
      | some pat0 =>
        (spaceToggleDrum true pos pat0).bind fun pat1 =>
          (drumKeysApply (List.replicate 4 false) pos pat1).bind fun pat2 =>
            let grown := growDrumLocal false localLen pat2
            (shrinkDrumLocal false grown.1 grown.2).bind fun shrunk =>
              some { st1 with drumPatterns := st1.drumPatterns.set t shrunk.2 }
    else
      match st1.synthPatterns[t - 2]? with
      | none => none
      | some pat0 =>
        (spaceToggleSynth true pos pat0).bind fun pat1 =>
          (synthKeysApply (List.replicate 12 false) pos st1.currentOctave st1.currentWaveform
              pat1).bind fun pat2 =>
            let grown := growSynthLocal false localLen pat2
            (shrinkSynthLocal false grown.1 grown.2).bind fun shrunk =>
              some { st1 with synthPatterns := st1.synthPatterns.set (t - 2) shrunk.2 }) =
    some st' := h
  dsimp only at h
  split at h
  case isTrue ht =>
    cases hpat : st.drumPatterns[st.editTarget]? with
    | none => rw [hpat] at h; exact Option.noConfusion h
    | some pat0 =>
      rw [hpat] at h
      dsimp only at h
      rw [spaceToggleDrum_true] at h
      cases hcell : pat0[st.editPosition]? with
      | none => rw [hcell] at h; exact Option.noConfusion h
      | some c =>
        rw [hcell] at h
        simp only [Option.map_some', Option.some_bind, drumKeysApply_falses,
          growDrumLocal_false, shrinkDrumLocal_false] at h
        have h2 := Option.some.inj h
        subst h2
        refine ⟨rfl, rfl, rfl, ?_⟩
        have hlt : st.editTarget < st.drumPatterns.length := (List.getElem?_eq_some.1 hpat).1
        have hlt2 : st.editPosition < pat0.length := (List.getElem?_eq_some.1 hcell).1
        unfold targetCellActive
        dsimp only
        rw [if_pos ht, if_pos ht]
        rw [getD_set_self _ _ _ _ hlt, List.getElem?_set_self hlt2,
          List.getD_eq_getElem?_getD, hpat]
        simp only [Option.getD_some]
        rw [hcell]
        rfl
  case isFalse ht =>
    cases hpat : st.synthPatterns[st.editTarget - 2]? with
    | none => rw [hpat] at h; exact Option.noConfusion h
    | some pat0 =>
      rw [hpat] at h
      dsimp only at h
      rw [spaceToggleSynth_true] at h
      cases hcell : pat0[st.editPosition]? with
      | none => rw [hcell] at h; exact Option.noConfusion h
      | some c =>
        rw [hcell] at h
        simp only [Option.map_some', Option.some_bind, synthKeysApply_falses,
          growSynthLocal_false, shrinkSynthLocal_false] at h
        have h2 := Option.some.inj h
        subst h2
        refine ⟨rfl, rfl, rfl, ?_⟩
        have hlt : st.editTarget - 2 < st.synthPatterns.length := (List.getElem?_eq_some.1 hpat).1
        have hlt2 : st.editPosition < pat0.length := (List.getElem?_eq_some.1 hcell).1
        unfold targetCellActive
        dsimp only
        rw [if_neg ht, if_neg ht]
        rw [getD_set_self _ _ _ _ hlt, List.getElem?_set_self hlt2,
          List.getD_eq_getElem?_getD, hpat]
        simp only [Option.getD_some]
        rw [hcell]
        rfl

theorem handle_loop_controls_space_shape (f : Nat) (st : AppState) :
    handle_loop_controls (spaceOnlyInput f) st =
      match loopPlaybackAction (!st.playing) st.loop f with
      | some _ => some { st with playing := !st.playing }
      | none => none := rfl

theorem handle_sequencer_space_shape (f : Nat) (st : AppState) :
    handle_sequencer (spaceOnlyInput f) st =
      (seqPlayingBranch st).bind (fun s => editBranch (spaceOnlyInput f) s) := rfl

/-- C10: on any completed frame in which edit mode is on and only SPACE is
pressed, `handle_loop_controls` flips the loop player's `playing` flag AND
`handle_sequencer` toggles the `active` flag of the cell under the edit cursor
— both effects land in the same tick, with the cursor and target unchanged. -/
theorem c10_space_flips_playing_and_toggles_cell (f : Nat) (st st' : AppState)
    (hm : st.editMode = true) (h : update (spaceOnlyInput f) st = some st') :
    st'.playing = !st.playing ∧
    targetCellActive st' = (targetCellActive st).map (fun a => 1 - a) ∧
    st'.editPosition = st.editPosition ∧ st'.editTarget = st.editTarget := by
  rw [update_spaceOnly] at h
  obtain ⟨s3, hlc, hrest⟩ := Option.bind_eq_some.1 h
  have hs3 : s3 = { st with playing := !st.playing } := by
    rw [handle_loop_controls_space_shape] at hlc
    cases hpa : loopPlaybackAction (!st.playing) st.loop f with
    | none => rw [hpa] at hlc; exact Option.noConfusion hlc
    | some a =>
      rw [hpa] at hlc
      exact (Option.some.inj hlc).symm
  subst hs3
  rw [handle_sequencer_space_shape] at hrest
  obtain ⟨s4, hseqb, hedit⟩ := Option.bind_eq_some.1 hrest
  obtain ⟨p1, p2, p3, p4, p5, p6⟩ := seqPlayingBranch_preserves _ _ hseqb
  have hm4 : s4.editMode = true := by rw [p2]; exact hm
  obtain ⟨q1, q2, q3, q4⟩ := editBranch_spaceOnly f s4 st' hm4 hedit
  refine ⟨?_, ?_, ?_, ?_⟩
  · rw [q1, p1]
  · rw [q4]
    have hsame : targetCellActive s4 = targetCellActive st := by
      unfold targetCellActive
      rw [p3, p4, p5, p6]
    rw [hsame]
  · rw [q2, p3]
  · rw [q3, p4]

/-- Witness for C10: the small edit-mode state with single-cell patterns, at
frame 1: SPACE turns loop playback on and activates the cursor cell. -/
theorem c10_space_flips_playing_and_toggles_cell_witness :
    c10Result.playing = !c10State.playing ∧
    targetCellActive c10Result = (targetCellActive c10State).map (fun a => 1 - a) ∧
    c10Result.editPosition = c10State.editPosition ∧
    c10Result.editTarget = c10State.editTarget :=
  c10_space_flips_playing_and_toggles_cell 1 c10State c10Result rfl rfl

end NeoRetroSynth
